import Mathlib

set_option maxRecDepth 4096

/-!
Verification of the WALL-E streaming chat consumer (src/static/js/app.js,
`sendMessage` and its helpers; src/unnamed/part_000 holds an identical copy
of the same function).  The JavaScript is shallowly embedded: strings are
`List Char`, one raw transport chunk is one `List Char` (or `List Nat` of
bytes at the decoding layer), and the per-line branch structure of the
`while (true) { read(); split('\n'); for (line of lines) ... }` loop is
translated branch for branch.  `JSON.parse` is modelled by an executable
recursive-descent parser over the full JSON grammar (numbers are kept as
their raw literal text: the consumer only ever observes their JavaScript
truthiness, and IEEE-754 float formatting is out of scope).
-/

namespace WallE

/-! ## JSON values, as produced by the modelled JSON.parse -/

/-- A parsed JSON value.  Numbers keep their raw literal characters: the
consumer observes a number only through its truthiness (zero mantissa or
not), never through float arithmetic. -/
inductive JVal where
  | jnull : JVal
  | jbool : Bool → JVal
  | jnum : List Char → JVal
  | jstr : List Char → JVal
  | jarr : List JVal → JVal
  | jobj : List (List Char × JVal) → JVal

/-- Whitespace accepted by JSON.parse between tokens. -/
def jsonWs (c : Char) : Bool :=
  c = ' ' || c = '\t' || c = '\n' || c = '\r'

/-- Drop leading JSON whitespace. -/
def skipWs : List Char → List Char
  | [] => []
  | c :: r => if jsonWs c then skipWs r else c :: r

/-- Decimal digit test. -/
def digitCh (c : Char) : Bool := '0' ≤ c && c ≤ '9'

/-- Split a longest run of decimal digits off the front. -/
def takeDigits : List Char → List Char × List Char
  | [] => ([], [])
  | c :: r =>
    if digitCh c then
      let p := takeDigits r
      (c :: p.1, p.2)
    else ([], c :: r)

/-- Value of one hexadecimal digit, by code point range. -/
def hexDigit (c : Char) : Option Nat :=
  let n := c.toNat
  if 48 ≤ n ∧ n ≤ 57 then some (n - 48)
  else if 97 ≤ n ∧ n ≤ 102 then some (n - 87)
  else if 65 ≤ n ∧ n ≤ 70 then some (n - 55)
  else none

/-- Value of a 4-digit hexadecimal escape. -/
def hex4 (a b c d : Char) : Option Nat :=
  match hexDigit a, hexDigit b, hexDigit c, hexDigit d with
  | some va, some vb, some vc, some vd =>
    some (va * 4096 + vb * 256 + vc * 16 + vd)
  | _, _, _, _ => none

/-- Single-character JSON string escapes after a backslash. -/
def escChar : Char → Option Char
  | '"' => some '"'
  | '\\' => some '\\'
  | '/' => some '/'
  | 'b' => some (Char.ofNat 8)
  | 'f' => some (Char.ofNat 12)
  | 'n' => some '\n'
  | 'r' => some '\r'
  | 't' => some '\t'
  | _ => none

/-- Parse the body of a JSON string after its opening quote: the decoded
characters and the input past the closing quote.  Raw control characters
are rejected, as JSON.parse rejects them.  A `\u` escape naming a lone
surrogate is approximated by `Char.ofNat`'s fallback (Lean strings hold
scalar values); no input in this development uses such an escape. -/
def pStringBody : List Char → Option (List Char × List Char)
  | '"' :: r => some ([], r)
  | '\\' :: 'u' :: a :: b :: c :: d :: r =>
    match hex4 a b c d with
    | some n => (pStringBody r).map fun p => (Char.ofNat n :: p.1, p.2)
    | none => none
  | '\\' :: e :: r =>
    match escChar e with
    | some ch => (pStringBody r).map fun p => (ch :: p.1, p.2)
    | none => none
  | '\\' :: [] => none
  | c :: r =>
    if c.toNat < 32 then none
    else (pStringBody r).map fun p => (c :: p.1, p.2)
  | [] => none

/-- Parse a JSON number literal: the raw characters consumed and the rest.
Grammar as in RFC 8259: optional minus, integer part without leading
zeros, optional fraction, optional exponent. -/
def pNumber (s : List Char) : Option (List Char × List Char) :=
  let sgn : List Char × List Char :=
    match s with
    | '-' :: r => (['-'], r)
    | _ => ([], s)
  match sgn.2 with
  | [] => none
  | c :: r =>
    if ¬ digitCh c then none
    else
      let ip : List Char × List Char :=
        if c = '0' then ([c], r)
        else
          let p := takeDigits r
          (c :: p.1, p.2)
      let fr : Option (List Char × List Char) :=
        match ip.2 with
        | '.' :: r2 =>
          let p := takeDigits r2
          if p.1 = [] then none else some ('.' :: p.1, p.2)
        | _ => some ([], ip.2)
      match fr with
      | none => none
      | some f =>
        let ex : Option (List Char × List Char) :=
          match f.2 with
          | e :: r3 =>
            if e = 'e' || e = 'E' then
              let sg2 : List Char × List Char :=
                match r3 with
                | '+' :: r4 => (['+'], r4)
                | '-' :: r4 => (['-'], r4)
                | _ => ([], r3)
              let p := takeDigits sg2.2
              if p.1 = [] then none else some (e :: sg2.1 ++ p.1, p.2)
            else some ([], f.2)
          | [] => some ([], [])
        match ex with
        | none => none
        | some x => some (sgn.1 ++ ip.1 ++ f.1 ++ x.1, x.2)

/-- Parse `true`, `false`, `null` or a number. -/
def pLit : List Char → Option (JVal × List Char)
  | 't' :: 'r' :: 'u' :: 'e' :: r => some (JVal.jbool true, r)
  | 'f' :: 'a' :: 'l' :: 's' :: 'e' :: r => some (JVal.jbool false, r)
  | 'n' :: 'u' :: 'l' :: 'l' :: r => some (JVal.jnull, r)
  | s => (pNumber s).map fun p => (JVal.jnum p.1, p.2)

mutual

/-- Parse one JSON value (leading whitespace allowed), fuel-bounded so the
definition is total; `jsonParse` supplies ample fuel. -/
def pValue : Nat → List Char → Option (JVal × List Char)
  | 0, _ => none
  | f + 1, s =>
    match skipWs s with
    | [] => none
    | c :: r =>
      if c = '"' then
        (pStringBody r).map fun p => (JVal.jstr p.1, p.2)
      else if c = Char.ofNat 123 then
        match skipWs r with
        | c2 :: r2 =>
          if c2 = Char.ofNat 125 then some (JVal.jobj [], r2)
          else pMembers f (skipWs r) []
        | [] => none
      else if c = '[' then
        match skipWs r with
        | c2 :: r2 =>
          if c2 = ']' then some (JVal.jarr [], r2)
          else pElems f (skipWs r) []
        | [] => none
      else pLit (c :: r)

/-- Parse the members of a JSON object, positioned at a key's opening
quote; `acc` holds the members already read in order. -/
def pMembers : Nat → List Char → List (List Char × JVal) →
    Option (JVal × List Char)
  | 0, _, _ => none
  | f + 1, s, acc =>
    match s with
    | '"' :: r =>
      match pStringBody r with
      | some (k, r2) =>
        match skipWs r2 with
        | ':' :: r3 =>
          match pValue f r3 with
          | some (v, r4) =>
            match skipWs r4 with
            | ',' :: r5 => pMembers f (skipWs r5) (acc ++ [(k, v)])
            | c5 :: r5 =>
              if c5 = Char.ofNat 125 then some (JVal.jobj (acc ++ [(k, v)]), r5)
              else none
            | [] => none
          | none => none
        | _ => none
      | none => none
    | _ => none

/-- Parse the elements of a JSON array, positioned at the first element. -/
def pElems : Nat → List Char → List JVal → Option (JVal × List Char)
  | 0, _, _ => none
  | f + 1, s, acc =>
    match pValue f s with
    | some (v, r) =>
      match skipWs r with
      | ',' :: r2 => pElems f (skipWs r2) (acc ++ [v])
      | ']' :: r2 => some (JVal.jarr (acc ++ [v]), r2)
      | _ => none
    | none => none

end

/-- The model of `JSON.parse(text)`: one value, with only whitespace
around it; `none` models a thrown SyntaxError. -/
def jsonParse (s : List Char) : Option JVal :=
  match pValue (s.length + 1) s with
  | some (v, rest) => if skipWs rest = [] then some v else none
  | none => none

/-! ## JavaScript-side observations of a parsed value

The consumer observes `parsed.done` and `parsed.content` only through
truthiness and (for `+=`) string coercion. -/

/-- True when a JSON number literal denotes zero: no nonzero digit in its
mantissa (digits after the exponent marker do not change zeroness). -/
def numZero (raw : List Char) : Bool :=
  (raw.takeWhile fun c => c ≠ 'e' && c ≠ 'E').all fun c => !('1' ≤ c && c ≤ '9')

/-- JavaScript truthiness of a JSON.parse result: null, false, zero and
the empty string are falsy; every object and array is truthy. -/
def truthy : JVal → Bool
  | JVal.jnull => false
  | JVal.jbool b => b
  | JVal.jnum raw => !numZero raw
  | JVal.jstr s => !s.isEmpty
  | JVal.jarr _ => true
  | JVal.jobj _ => true

mutual

/-- JavaScript string coercion of a value (as `'' + v` performs it):
strings are themselves, arrays join their elements with commas (null
elements become empty), objects print as `[object Object]`.  A number
coerces to its raw literal text here: exact IEEE-754 float formatting is
not representable, and no frame of this protocol puts a number in
`content`. -/
def jsToString : JVal → List Char
  | JVal.jnull => "null".toList
  | JVal.jbool true => "true".toList
  | JVal.jbool false => "false".toList
  | JVal.jnum raw => raw
  | JVal.jstr s => s
  | JVal.jarr xs => jsArrString xs
  | JVal.jobj _ => "[object Object]".toList

/-- Array-to-string coercion: elements separated by commas, null rendered
as nothing (JavaScript `Array.prototype.join`). -/
def jsArrString : List JVal → List Char
  | [] => []
  | [JVal.jnull] => []
  | [x] => jsToString x
  | JVal.jnull :: xs => ',' :: jsArrString xs
  | x :: xs => jsToString x ++ ',' :: jsArrString xs

end

/-- Property read `v[k]` on a JSON.parse result: on an object the last
binding of the key wins (later duplicate keys overwrite earlier ones);
on any non-object, non-null value the read yields undefined (`none`). -/
def getField : JVal → List Char → Option JVal
  | JVal.jobj ms, k => ms.foldl (fun acc kv => if kv.1 = k then some kv.2 else acc) none
  | _, _ => none

/-- What the consumer's body observes of one successfully parsed payload:
whether `parsed.done` is truthy, and — when `parsed.content` is truthy —
the text that `+=` appends for it. -/
structure Frame where
  doneF : Bool
  content : Option (List Char)

/-- Observation of a JSON.parse result by the consumer body.  Reading
`.done` on `null` throws a TypeError that lands in the same catch as a
parse error, so `null` maps to `none` like a failed parse. -/
def frameOfJson : JVal → Option Frame
  | JVal.jnull => none
  | v =>
    let d := match getField v ("done".toList) with
      | some dv => truthy dv
      | none => false
    let ct := match getField v ("content".toList) with
      | some cv => if truthy cv then some (jsToString cv) else none
      | none => none
    some ⟨d, ct⟩

/-- The composite `JSON.parse` plus property reads: `none` exactly when
the code's `catch (e) { console.error(...) }` runs for the payload. -/
def jsonFrameParse (payload : List Char) : Option Frame :=
  (jsonParse payload).bind frameOfJson

/-! ## The streaming consumer (src/static/js/app.js lines 1013-1054)

The loop reads chunks; each chunk is decoded and split on `'\n'`
independently — the code keeps no carry-over buffer between chunks.  Every
theorem about the consumer is stated over an arbitrary payload
interpretation `parse` where possible, and instantiated with
`jsonFrameParse` on concrete inputs. -/

/-- An observable event of the consumer: one `ContentDelta` text (a call
to `updateStreamingMessage` driven by `parsed.content`), or the single
`Completion` (the `parsed.done` branch). -/
inductive Ev where
  | delta : List Char → Ev
  | completion : Ev
deriving DecidableEq

/-- The model of JavaScript `chunk.split('\n')`: the segments between
newline characters, keeping empty segments and a final (possibly empty)
segment after the last newline. -/
def splitNl : List Char → List (List Char)
  | [] => [[]]
  | c :: r =>
    match splitNl r with
    | [] => [[]]
    | l :: ls => if c = '\n' then [] :: l :: ls else (c :: l) :: ls

/-- The fixed frame marker the code tests with `line.startsWith('data: ')`. -/
def marker : List Char := "data: ".toList

/-- The payload of a line: `line.slice(6)` when the line starts with the
marker, `none` for every other line (silently skipped). -/
def payloadOf (line : List Char) : Option (List Char) :=
  if marker.isPrefixOf line then some (line.drop 6) else none

/-- What one line makes the loop body do. -/
inductive LineOut where
  | skip : LineOut
  | logged : LineOut
  | complete : LineOut
  | emit : List Char → LineOut
deriving DecidableEq

/-- The per-line branch structure of the loop body: non-marker lines are
skipped; an empty or `[DONE]` payload is skipped; a payload the parse
rejects logs an error; a truthy `done` completes; a truthy `content`
emits; anything else is skipped. -/
def lineOut (parse : List Char → Option Frame) (line : List Char) : LineOut :=
  match payloadOf line with
  | none => LineOut.skip
  | some d =>
    if d = [] ∨ d = "[DONE]".toList then LineOut.skip
    else
      match parse d with
      | none => LineOut.logged
      | some f =>
        if f.doneF then LineOut.complete
        else
          match f.content with
          | some t => LineOut.emit t
          | none => LineOut.skip

/-- Result of running the loop body over a list of lines: the events in
order, the number of parse errors logged, and whether the `done` branch
returned (stopping all further processing). -/
structure LinesRes where
  evs : List Ev
  errs : Nat
  stopped : Bool
deriving DecidableEq

/-- Run the loop body over lines, honoring the early `return` of the
`parsed.done` branch. -/
def runLines (parse : List Char → Option Frame) : List (List Char) → LinesRes
  | [] => ⟨[], 0, false⟩
  | l :: ls =>
    match lineOut parse l with
    | LineOut.complete => ⟨[Ev.completion], 0, true⟩
    | LineOut.emit t =>
      let r := runLines parse ls
      ⟨Ev.delta t :: r.evs, r.errs, r.stopped⟩
    | LineOut.logged =>
      let r := runLines parse ls
      ⟨r.evs, r.errs + 1, r.stopped⟩
    | LineOut.skip => runLines parse ls

/-- Run the whole read loop over the delivered chunks: each chunk is
split on newlines by itself (no cross-chunk buffer), and a chunk whose
processing returned stops the loop — later chunks are never read. -/
def runChunksRes (parse : List Char → Option Frame) :
    List (List Char) → LinesRes
  | [] => ⟨[], 0, false⟩
  | c :: cs =>
    let r := runLines parse (splitNl c)
    if r.stopped then r
    else
      let r2 := runChunksRes parse cs
      ⟨r.evs ++ r2.evs, r.errs + r2.errs, r2.stopped⟩

/-- The ordered event sequence the consumer emits for a chunk sequence. -/
def runChunks (parse : List Char → Option Frame) (cs : List (List Char)) :
    List Ev :=
  (runChunksRes parse cs).evs

/-! ## Byte-to-text decoding (`new TextDecoder()`, `decoder.decode(value)`)

The code calls `decode(value)` without `{stream: true}`, so every chunk is
decoded as a complete standalone byte sequence: an incomplete multi-byte
sequence at a chunk boundary is flushed to U+FFFD instead of being carried
to the next chunk.  `utf8Decode` is the WHATWG UTF-8 decoder with
replacement: one U+FFFD per maximal subpart of an ill-formed sequence. -/

/-- The replacement code point U+FFFD. -/
def repCp : Nat := 0xFFFD

/-- Continuation byte test (0x80–0xBF). -/
def contB (b : Nat) : Bool := 0x80 ≤ b && b ≤ 0xBF

/-- Lower bound a second byte must meet after lead `b` of a 3-byte
sequence (0xA0 after 0xE0, excluding overlong forms). -/
def lo3 (b : Nat) : Nat := if b = 0xE0 then 0xA0 else 0x80

/-- Upper bound for the second byte after lead `b` of a 3-byte sequence
(0x9F after 0xED, excluding surrogates). -/
def hi3 (b : Nat) : Nat := if b = 0xED then 0x9F else 0xBF

/-- Lower bound for the second byte after lead `b` of a 4-byte sequence
(0x90 after 0xF0, excluding overlong forms). -/
def lo4 (b : Nat) : Nat := if b = 0xF0 then 0x90 else 0x80

/-- Upper bound for the second byte after lead `b` of a 4-byte sequence
(0x8F after 0xF4, keeping code points below 0x110000). -/
def hi4 (b : Nat) : Nat := if b = 0xF4 then 0x8F else 0xBF

/-- One step of the WHATWG UTF-8 decoder: given the first byte and the
remaining bytes, the code point produced (or U+FFFD) and how many bytes
beyond the first were consumed.  On an ill-formed sequence the decoder
emits one replacement and resumes at the first offending byte. -/
def utf8Step (b : Nat) (rest : List Nat) : Nat × Nat :=
  if b ≤ 0x7F then (b, 0)
  else if b < 0xC2 then (repCp, 0)
  else if b ≤ 0xDF then
    match rest with
    | b1 :: _ =>
      if contB b1 then ((b - 0xC0) * 64 + (b1 - 0x80), 1) else (repCp, 0)
    | [] => (repCp, 0)
  else if b ≤ 0xEF then
    match rest with
    | b1 :: b2 :: _ =>
      if lo3 b ≤ b1 && b1 ≤ hi3 b then
        if contB b2 then
          ((b - 0xE0) * 4096 + (b1 - 0x80) * 64 + (b2 - 0x80), 2)
        else (repCp, 1)
      else (repCp, 0)
    | [b1] => if lo3 b ≤ b1 && b1 ≤ hi3 b then (repCp, 1) else (repCp, 0)
    | [] => (repCp, 0)
  else if b ≤ 0xF4 then
    match rest with
    | b1 :: b2 :: b3 :: _ =>
      if lo4 b ≤ b1 && b1 ≤ hi4 b then
        if contB b2 then
          if contB b3 then
            ((b - 0xF0) * 262144 + (b1 - 0x80) * 4096 +
              (b2 - 0x80) * 64 + (b3 - 0x80), 3)
          else (repCp, 2)
        else (repCp, 1)
      else (repCp, 0)
    | [b1, b2] =>
      if lo4 b ≤ b1 && b1 ≤ hi4 b then
        if contB b2 then (repCp, 2) else (repCp, 1)
      else (repCp, 0)
    | [b1] => if lo4 b ≤ b1 && b1 ≤ hi4 b then (repCp, 1) else (repCp, 0)
    | [] => (repCp, 0)
  else (repCp, 0)

/-- Recursion core of the decoder, structural on a fuel bound so that the
definition computes by kernel reduction; one byte at least is consumed per
step, so `length` fuel always suffices. -/
def utf8DecodeGo : Nat → List Nat → List Nat
  | 0, _ => []
  | _ + 1, [] => []
  | f + 1, b :: r =>
    let s := utf8Step b r
    s.1 :: utf8DecodeGo f (r.drop s.2)

/-- Decode a complete byte sequence to code points, WHATWG UTF-8 with
replacement (what one `decoder.decode(value)` call performs). -/
def utf8Decode (bs : List Nat) : List Nat := utf8DecodeGo bs.length bs

/-- One decoding step never consumes more than the rest holds. -/
theorem utf8Step_le (b : Nat) (rest : List Nat) :
    (utf8Step b rest).2 ≤ rest.length := by
  rcases rest with _ | ⟨b1, _ | ⟨b2, _ | ⟨b3, r⟩⟩⟩ <;>
    simp only [utf8Step] <;> split_ifs <;> simp

/-- Any fuel at least the length decodes like `utf8Decode`. -/
theorem utf8DecodeGo_fuel : ∀ (f : Nat) (bs : List Nat),
    bs.length ≤ f → utf8DecodeGo f bs = utf8Decode bs
  | 0, bs, h => by
    have hnil : bs = [] := List.eq_nil_of_length_eq_zero (Nat.le_zero.mp h)
    subst hnil
    rfl
  | _ + 1, [], _ => rfl
  | f + 1, b :: r, h => by
    have hle := utf8Step_le b r
    have hlen : (r.drop (utf8Step b r).2).length ≤ f := by
      simp only [List.length_drop]
      simp only [List.length_cons] at h
      omega
    have hlen2 : (r.drop (utf8Step b r).2).length ≤ r.length := by
      simp
    show (utf8Step b r).1 :: utf8DecodeGo f (r.drop (utf8Step b r).2) = _
    rw [utf8DecodeGo_fuel f _ hlen]
    show _ = (utf8Step b r).1 ::
      utf8DecodeGo r.length (r.drop (utf8Step b r).2)
    rw [utf8DecodeGo_fuel r.length _ hlen2]

/-- The head-step unfolding of the decoder. -/
theorem utf8Decode_cons (b : Nat) (r : List Nat) :
    utf8Decode (b :: r) =
      (utf8Step b r).1 :: utf8Decode (r.drop (utf8Step b r).2) := by
  show utf8DecodeGo (r.length + 1) (b :: r) = _
  rw [show utf8DecodeGo (r.length + 1) (b :: r) =
      (utf8Step b r).1 :: utf8DecodeGo r.length (r.drop (utf8Step b r).2)
      from rfl]
  rw [utf8DecodeGo_fuel r.length _ (by simp)]

/-- The UTF-8 encoding of one code point (as the server's well-formed
bytes would carry it). -/
def encodeCp (c : Nat) : List Nat :=
  if c ≤ 0x7F then [c]
  else if c ≤ 0x7FF then [0xC0 + c / 64, 0x80 + c % 64]
  else if c ≤ 0xFFFF then
    [0xE0 + c / 4096, 0x80 + c / 64 % 64, 0x80 + c % 64]
  else
    [0xF0 + c / 262144, 0x80 + c / 4096 % 64, 0x80 + c / 64 % 64, 0x80 + c % 64]

/-- A Unicode scalar value: in range and not a surrogate. -/
def ScalarCp (c : Nat) : Prop := c < 0x110000 ∧ (c < 0xD800 ∨ 0xDFFF < c)

instance (c : Nat) : Decidable (ScalarCp c) :=
  inferInstanceAs (Decidable (c < 0x110000 ∧ (c < 0xD800 ∨ 0xDFFF < c)))

/-- The byte list `bs` is exactly the UTF-8 encoding of the scalar code
points `cps`. -/
def Utf8Encodes (bs : List Nat) (cps : List Nat) : Prop :=
  (∀ c ∈ cps, ScalarCp c) ∧ bs = (cps.map encodeCp).flatten

/-- A well-formed UTF-8 byte list: the encoding of some scalar sequence. -/
def ValidUtf8 (bs : List Nat) : Prop := ∃ cps, Utf8Encodes bs cps

/-- Code points to Lean characters (decoder output is always a scalar
value, where `Char.ofNat` is faithful). -/
def charsOf (cps : List Nat) : List Char := cps.map Char.ofNat

/-- The text one `decoder.decode(value)` call yields for one chunk. -/
def decodeChunk (bs : List Nat) : List Char := charsOf (utf8Decode bs)

/-- The full pipeline on raw transport bytes: decode each chunk
independently (no decoder state carries over), then run the consumer. -/
def runChunksBytes (parse : List Char → Option Frame)
    (bs : List (List Nat)) : List Ev :=
  runChunks parse (bs.map decodeChunk)

/-- UTF-8 bytes of an ASCII string literal (used to write concrete byte
chunks; on ASCII the encoding is the characters' code points). -/
def asciiB (s : String) : List Nat := s.toList.map Char.toNat

/-! ## The surrounding application state (`sendMessage` end to end)

`state` is modelled by the fields the claims observe: the two busy flags,
the accumulating response, the in-flight assistant message, and the
current chat's message list (`state.chats.get(state.currentChatId)`,
`none` when there is no current chat).  DOM rendering, timestamps, chat
titles, ratings and the backend save calls do not feed back into any
modelled observation and are omitted. -/

/-- A message role. -/
inductive Role where
  | user : Role
  | assistant : Role
deriving DecidableEq

/-- One chat message: role and content text. -/
structure Msg where
  role : Role
  content : List Char
deriving DecidableEq

/-- The application state `sendMessage` reads and writes. -/
structure AppState where
  isStreaming : Bool
  isWaitingForResponse : Bool
  currentStreamResponse : List Char
  currentStreamMessage : Option Msg
  currentChat : Option (List Msg)
deriving DecidableEq

/-- What one run of `sendMessage` makes externally observable: whether a
request was issued (the fetch), the `ContentDelta` texts in order, how
many fatal errors were surfaced (`handleSendMessageError` runs), and how
many per-frame parse errors were logged. -/
structure Obs where
  issued : Bool
  deltas : List (List Char)
  errors : Nat
  logs : Nat
deriving DecidableEq

/-- One recorded transport: the chunks `reader.read()` delivers in order,
then — unless the consumer already returned — either a clean end of
stream (`none`) or a thrown failure with the given error message (`some`;
this also covers a non-ok response or a failed fetch, with no chunks). -/
structure Transport where
  chunks : List (List Char)
  failMsg : Option (List Char)
deriving DecidableEq

/-- Whitespace removed by JavaScript `String.prototype.trim` (the common
ASCII part; exotic Unicode space classes are not used by any input
here). -/
def jsTrimWs (c : Char) : Bool :=
  c = ' ' || c = '\t' || c = '\n' || c = '\r' ||
    c = Char.ofNat 11 || c = Char.ofNat 12

/-- The model of `input.trim()`. -/
def jsTrim (s : List Char) : List Char :=
  ((s.dropWhile jsTrimWs).reverse.dropWhile jsTrimWs).reverse

/-- The model of `addMessageToChat(role, content)`: ensure a current chat
exists (`createNewChat` starts it empty) and append the message. -/
def addMessageToChat (st : AppState) (r : Role) (content : List Char) :
    AppState :=
  { st with currentChat := some (st.currentChat.getD [] ++ [⟨r, content⟩]) }

/-- The error text `sendMessage`'s catch block builds. -/
def connErr (emsg : List Char) : List Char :=
  "Connection error: ".toList ++ emsg

/-- The model of `handleSendMessageError(error)`: clear both busy flags;
if a streaming message exists, overwrite its content with the error text
and append it to the current chat (when one exists); otherwise add a
fresh assistant message; finally clear the stream buffer. -/
def handleSendMessageError (st : AppState) (emsg : List Char) : AppState :=
  let st1 : AppState := { st with isStreaming := false, isWaitingForResponse := false }
  match st1.currentStreamMessage with
  | some m =>
    let m2 : Msg := { m with content := connErr emsg }
    let st2 : AppState :=
      match st1.currentChat with
      | some ms => { st1 with currentChat := some (ms ++ [m2]) }
      | none => st1
    { st2 with currentStreamMessage := none, currentStreamResponse := [] }
  | none =>
    let st2 := addMessageToChat st1 Role.assistant (connErr emsg)
    { st2 with currentStreamResponse := [] }

/-- The loop state while chunks are processed: application state, the
observations so far, and whether the `done` branch has returned. -/
structure StepSt where
  app : AppState
  obs : Obs
  stopped : Bool

/-- The state effect of one line of the loop body (classified by
`lineOut`): a content frame appends to `currentStreamResponse` and
`updateStreamingMessage` copies the accumulated text into the streaming
message; the `done` branch clears the flags, appends the streaming
message to the current chat, clears the stream state and returns. -/
def doLine (parse : List Char → Option Frame) (s : StepSt)
    (line : List Char) : StepSt :=
  if s.stopped then s
  else
    match lineOut parse line with
    | LineOut.skip => s
    | LineOut.logged => { s with obs := { s.obs with logs := s.obs.logs + 1 } }
    | LineOut.emit t =>
      let csr := s.app.currentStreamResponse ++ t
      let csm : Option Msg :=
        match s.app.currentStreamMessage with
        | some m => some { m with content := csr }
        | none => none
      { app := { s.app with currentStreamResponse := csr, currentStreamMessage := csm },
        obs := { s.obs with deltas := s.obs.deltas ++ [t] },
        stopped := false }
    | LineOut.complete =>
      let app1 : AppState :=
        { s.app with isStreaming := false, isWaitingForResponse := false }
      let app2 : AppState :=
        match app1.currentChat, app1.currentStreamMessage with
        | some ms, some m => { app1 with currentChat := some (ms ++ [m]) }
        | _, _ => app1
      { app := { app2 with currentStreamMessage := none, currentStreamResponse := [] },
        obs := s.obs,
        stopped := true }

/-- Process one chunk: split on newlines, run each line. -/
def doChunk (parse : List Char → Option Frame) (s : StepSt)
    (c : List Char) : StepSt :=
  (splitNl c).foldl (doLine parse) s

/-- Process the delivered chunks in order. -/
def doChunks (parse : List Char → Option Frame) (s : StepSt)
    (cs : List (List Char)) : StepSt :=
  cs.foldl (doChunk parse) s

/-- The model of `sendMessage()` (src/static/js/app.js lines 959-1058)
for one recorded transport: the guard returns immediately when the input
trims to empty or a previous stream is still in flight; otherwise the
user message is added, the busy flags are set, the stream message is
created, the request is issued and the chunk loop runs; a completion
returned from inside the loop skips the catch entirely, otherwise a
recorded transport failure runs `handleSendMessageError`. -/
def sendMessage (parse : List Char → Option Frame) (st : AppState)
    (input : List Char) (t : Transport) : AppState × Obs :=
  let m := jsTrim input
  if m.isEmpty || st.isWaitingForResponse || st.isStreaming then
    (st, ⟨false, [], 0, 0⟩)
  else
    let st1 := addMessageToChat st Role.user m
    let st2 : AppState :=
      { st1 with
        isWaitingForResponse := true, isStreaming := true,
        currentStreamResponse := [],
        currentStreamMessage := some ⟨Role.assistant, []⟩ }
    let s := doChunks parse ⟨st2, ⟨true, [], 0, 0⟩, false⟩ t.chunks
    if s.stopped then (s.app, s.obs)
    else
      match t.failMsg with
      | some emsg =>
        (handleSendMessageError s.app emsg,
          { s.obs with errors := s.obs.errors + 1 })
      | none => (s.app, s.obs)

/-- A sequence of further `sendMessage` calls: the final state and how
many of the calls issued a request. -/
def sendCalls (parse : List Char → Option Frame) :
    AppState → List (List Char × Transport) → AppState × Nat
  | st, [] => (st, 0)
  | st, (input, t) :: rest =>
    let p := sendMessage parse st input t
    let q := sendCalls parse p.1 rest
    (q.1, (if p.2.issued then 1 else 0) + q.2)

/-- How many `Completion` events a sequence holds. -/
def countCompletion (evs : List Ev) : Nat := evs.count Ev.completion

/-- The `ContentDelta` texts of an event sequence, in order. -/
def deltaTexts (evs : List Ev) : List (List Char) :=
  evs.filterMap fun e =>
    match e with
    | Ev.delta t => some t
    | Ev.completion => none

/-! ## Lemmas about the line and chunk loops -/

/-- Splitting a line list around `++` composes the loop results, honoring
the early return. -/
theorem runLines_append (parse : List Char → Option Frame)
    (xs ys : List (List Char)) :
    runLines parse (xs ++ ys) =
      if (runLines parse xs).stopped then runLines parse xs
      else
        ⟨(runLines parse xs).evs ++ (runLines parse ys).evs,
          (runLines parse xs).errs + (runLines parse ys).errs,
          (runLines parse ys).stopped⟩ := by
  induction xs with
  | nil => simp [runLines]
  | cons l ls ih =>
    cases h : lineOut parse l with
    | complete => simp [runLines, h]
    | emit t =>
      simp only [List.cons_append, runLines, h, List.append_eq, ih]
      by_cases hs : (runLines parse ls).stopped <;> simp [hs]
    | logged =>
      simp only [List.cons_append, runLines, h, List.append_eq, ih]
      by_cases hs : (runLines parse ls).stopped <;> simp [hs] <;> omega
    | skip => simpa only [List.cons_append, runLines, h, List.append_eq] using ih

/-- A line list completes exactly once when its processing stopped, never
otherwise. -/
theorem runLines_count (parse : List Char → Option Frame)
    (ls : List (List Char)) :
    countCompletion (runLines parse ls).evs =
      if (runLines parse ls).stopped then 1 else 0 := by
  induction ls with
  | nil => simp [runLines, countCompletion]
  | cons l ls ih =>
    cases h : lineOut parse l with
    | complete => simp [runLines, h, countCompletion]
    | emit t => simpa [runLines, h, countCompletion] using ih
    | logged => simpa [runLines, h, countCompletion] using ih
    | skip => simpa only [runLines, h] using ih

/-- A stopped line run is its delta events followed by the completion. -/
theorem runLines_stopped_evs (parse : List Char → Option Frame)
    (ls : List (List Char)) (h : (runLines parse ls).stopped = true) :
    (runLines parse ls).evs =
      ((deltaTexts (runLines parse ls).evs).map Ev.delta) ++ [Ev.completion] := by
  induction ls with
  | nil => simp [runLines] at h
  | cons l ls ih =>
    cases hl : lineOut parse l with
    | complete => simp [runLines, hl, deltaTexts]
    | emit t =>
      simp only [runLines, hl] at h ⊢
      simp only [deltaTexts] at ih ⊢
      simp only [List.filterMap_cons, List.map_cons, List.cons_append, List.cons.injEq, true_and]
      exact ih h
    | logged =>
      simp only [runLines, hl] at h ⊢
      exact ih h
    | skip =>
      simp only [runLines, hl] at h ⊢
      exact ih h

/-- Splitting a chunk list around an append composes the loop results. -/
theorem runChunksRes_append (parse : List Char → Option Frame)
    (xs ys : List (List Char)) :
    runChunksRes parse (xs ++ ys) =
      if (runChunksRes parse xs).stopped then runChunksRes parse xs
      else
        ⟨(runChunksRes parse xs).evs ++ (runChunksRes parse ys).evs,
          (runChunksRes parse xs).errs + (runChunksRes parse ys).errs,
          (runChunksRes parse ys).stopped⟩ := by
  induction xs with
  | nil => simp [runChunksRes]
  | cons c cs ih =>
    by_cases h : (runLines parse (splitNl c)).stopped
    · simp [runChunksRes, h]
    · simp only [List.cons_append, runChunksRes, h, List.append_eq, ih, if_false]
      by_cases hs : (runChunksRes parse cs).stopped
      · simp [hs]
      · simp [hs]
        omega

/-- A chunk run completes exactly once when it stopped, never otherwise. -/
theorem runChunksRes_count (parse : List Char → Option Frame)
    (cs : List (List Char)) :
    countCompletion (runChunksRes parse cs).evs =
      if (runChunksRes parse cs).stopped then 1 else 0 := by
  induction cs with
  | nil => simp [runChunksRes, countCompletion]
  | cons c cs ih =>
    have hc := runLines_count parse (splitNl c)
    by_cases h : (runLines parse (splitNl c)).stopped
    · rw [show runChunksRes parse (c :: cs) = runLines parse (splitNl c) by
        simp [runChunksRes, h]]
      exact hc
    · have hc2 : List.count Ev.completion (runLines parse (splitNl c)).evs = 0 := by
        simp only [countCompletion] at hc
        rw [hc, if_neg h]
      rw [show runChunksRes parse (c :: cs) =
          (⟨(runLines parse (splitNl c)).evs ++ (runChunksRes parse cs).evs,
            (runLines parse (splitNl c)).errs + (runChunksRes parse cs).errs,
            (runChunksRes parse cs).stopped⟩ : LinesRes) by
        simp [runChunksRes, h]]
      simp only [countCompletion, List.count_append] at ih ⊢
      rw [hc2]
      by_cases hs : (runChunksRes parse cs).stopped
      · rw [if_pos hs] at ih ⊢
        omega
      · rw [if_neg hs] at ih ⊢
        omega

/-- One chunk alone behaves as its line list. -/
theorem runChunksRes_single (parse : List Char → Option Frame)
    (c : List Char) :
    runChunksRes parse [c] = runLines parse (splitNl c) := by
  simp only [runChunksRes]
  cases hr : runLines parse (splitNl c) with
  | mk evs errs stopped => cases stopped <;> simp

/-- A split never yields the empty list of segments. -/
theorem splitNl_ne_nil (s : List Char) : splitNl s ≠ [] := by
  cases s with
  | nil => simp [splitNl]
  | cons c r =>
    simp only [splitNl]
    cases h : splitNl r with
    | nil => simp
    | cons l ls => by_cases hc : c = '\n' <;> simp [hc]

/-- An empty line (between adjacent newlines, or trailing) is skipped. -/
theorem lineOut_nil (parse : List Char → Option Frame) :
    lineOut parse [] = LineOut.skip := rfl

/-- Unfolding of `splitNl` on a cons, with the head segment explicit. -/
theorem splitNl_cons (c : Char) (r : List Char) :
    splitNl (c :: r) =
      if c = '\n' then [] :: splitNl r
      else (c :: (splitNl r).headD []) :: (splitNl r).tail := by
  simp only [splitNl]
  cases h : splitNl r with
  | nil => exact absurd h (splitNl_ne_nil r)
  | cons l ls => by_cases hc : c = '\n' <;> simp [hc]

/-- A text ending in a newline contributes its segments as a prefix of
any continuation's split: the shape behind line-aligned chunking. -/
theorem splitNl_term (s : List Char) (h : s.getLast? = some '\n') :
    ∃ ds, ds ≠ [] ∧ splitNl s = ds ++ [[]] ∧
      ∀ b, splitNl (s ++ b) = ds ++ splitNl b := by
  induction s with
  | nil => simp at h
  | cons c r ih =>
    cases r with
    | nil =>
      simp only [List.getLast?_singleton, Option.some.injEq] at h
      subst h
      refine ⟨[[]], by simp, by simp [splitNl], ?_⟩
      intro b
      simp [List.singleton_append, splitNl_cons]
    | cons c2 r2 =>
      have h2 : (c2 :: r2).getLast? = some '\n' := by
        rwa [List.getLast?_cons_cons] at h
      obtain ⟨ds, hne, hsplit, happ⟩ := ih h2
      by_cases hc : c = '\n'
      · subst hc
        refine ⟨[] :: ds, by simp, ?_, ?_⟩
        · rw [splitNl_cons, if_pos rfl, hsplit]
          simp
        · intro b
          rw [List.cons_append, splitNl_cons, if_pos rfl, happ b]
          simp
      · obtain ⟨d, ds2, rfl⟩ : ∃ d ds2, ds = d :: ds2 := by
          cases ds with
          | nil => exact absurd rfl hne
          | cons d ds2 => exact ⟨d, ds2, rfl⟩
        refine ⟨(c :: d) :: ds2, by simp, ?_, ?_⟩
        · rw [splitNl_cons, if_neg hc, hsplit]
          simp
        · intro b
          rw [List.cons_append, splitNl_cons, if_neg hc, happ b]
          simp

/-- When every chunk ends at a line terminator, chunked processing equals
processing the concatenation as one chunk. -/
theorem runChunksRes_nlAligned (parse : List Char → Option Frame)
    (cs : List (List Char))
    (h : ∀ c ∈ cs, c = [] ∨ c.getLast? = some '\n') :
    runChunksRes parse cs = runLines parse (splitNl cs.flatten) := by
  induction cs with
  | nil => simp [runChunksRes, splitNl, runLines, lineOut_nil]
  | cons c cs ih =>
    have hcs : ∀ x ∈ cs, x = [] ∨ x.getLast? = some '\n' :=
      fun x hx => h x (by simp [hx])
    have ihh := ih hcs
    rcases h c (by simp) with hce | hcl
    · subst hce
      rw [show ([] :: cs : List (List Char)).flatten = cs.flatten by simp]
      rw [show runChunksRes parse ([] :: cs) =
          runChunksRes parse cs by
        simp [runChunksRes, splitNl, runLines, lineOut_nil]]
      exact ihh
    · obtain ⟨ds, hne, hsplit, happ⟩ := splitNl_term c hcl
      have e2 : splitNl (c :: cs).flatten = ds ++ splitNl cs.flatten := by
        rw [List.flatten_cons]
        exact happ _
      have e1 : runLines parse (splitNl c) =
          if (runLines parse ds).stopped then runLines parse ds
          else ⟨(runLines parse ds).evs, (runLines parse ds).errs, false⟩ := by
        rw [hsplit, runLines_append]
        by_cases hd : (runLines parse ds).stopped <;>
          simp [hd, runLines, lineOut_nil]
      rw [e2, runLines_append]
      by_cases hd : (runLines parse ds).stopped
      · rw [if_pos hd]
        simp only [runChunksRes, e1, if_pos hd, hd, if_true]
      · rw [if_neg hd]
        simp only [runChunksRes, e1, if_neg hd, hd, if_false]
        simp only [ihh]
        by_cases hs : (runLines parse (splitNl cs.flatten)).stopped <;> simp [hs]

/-- An ASCII byte decodes to itself, consuming nothing further. -/
theorem utf8Step_ascii (b : Nat) (rest : List Nat) (h : b ≤ 0x7F) :
    utf8Step b rest = (b, 0) := by
  unfold utf8Step
  rw [if_pos h]

/-- A well-formed 2-byte sequence decodes to its code point. -/
theorem utf8Step_two (b b1 : Nat) (rest : List Nat)
    (h1 : 0xC2 ≤ b) (h2 : b ≤ 0xDF) (h3 : contB b1 = true) :
    utf8Step b (b1 :: rest) = ((b - 0xC0) * 64 + (b1 - 0x80), 1) := by
  unfold utf8Step
  rw [if_neg (by omega), if_neg (by omega), if_pos h2]
  simp [h3]

/-- A well-formed 3-byte sequence decodes to its code point. -/
theorem utf8Step_three (b b1 b2 : Nat) (rest : List Nat)
    (h1 : 0xE0 ≤ b) (h2 : b ≤ 0xEF)
    (h3 : (lo3 b ≤ b1 && b1 ≤ hi3 b) = true) (h4 : contB b2 = true) :
    utf8Step b (b1 :: b2 :: rest) =
      ((b - 0xE0) * 4096 + (b1 - 0x80) * 64 + (b2 - 0x80), 2) := by
  unfold utf8Step
  rw [if_neg (by omega), if_neg (by omega), if_neg (by omega), if_pos h2]
  simp [h3, h4]

/-- A well-formed 4-byte sequence decodes to its code point. -/
theorem utf8Step_four (b b1 b2 b3 : Nat) (rest : List Nat)
    (h1 : 0xF0 ≤ b) (h2 : b ≤ 0xF4)
    (h3 : (lo4 b ≤ b1 && b1 ≤ hi4 b) = true) (h4 : contB b2 = true)
    (h5 : contB b3 = true) :
    utf8Step b (b1 :: b2 :: b3 :: rest) =
      ((b - 0xF0) * 262144 + (b1 - 0x80) * 4096 +
        (b2 - 0x80) * 64 + (b3 - 0x80), 3) := by
  unfold utf8Step
  rw [if_neg (by omega), if_neg (by omega), if_neg (by omega), if_neg (by omega),
    if_pos h2]
  simp [h3, h4, h5]

/-- The decoder consumes exactly the encoding of a scalar code point at
the head of the input and yields that code point. -/
theorem utf8Decode_encodeCp (c : Nat) (hc : ScalarCp c) (rest : List Nat) :
    utf8Decode (encodeCp c ++ rest) = c :: utf8Decode rest := by
  obtain ⟨hlt, hsur⟩ := hc
  by_cases h1 : c ≤ 0x7F
  · rw [show encodeCp c = [c] from by unfold encodeCp; rw [if_pos h1]]
    simp only [List.cons_append, List.nil_append]
    rw [utf8Decode_cons, utf8Step_ascii c rest h1]
    simp
  · by_cases h2 : c ≤ 0x7FF
    · rw [show encodeCp c = [0xC0 + c / 64, 0x80 + c % 64] from by
        unfold encodeCp; rw [if_neg h1, if_pos h2]]
      have hcont : contB (0x80 + c % 64) = true := by
        simp only [contB, Bool.and_eq_true, decide_eq_true_eq]
        omega
      simp only [List.cons_append, List.nil_append]
      rw [utf8Decode_cons, utf8Step_two _ _ _ (by omega) (by omega) hcont]
      simp only [List.drop_succ_cons, List.drop_zero]
      congr 1
      omega
    · by_cases h3 : c ≤ 0xFFFF
      · rw [show encodeCp c = [0xE0 + c / 4096, 0x80 + c / 64 % 64, 0x80 + c % 64] from by
          unfold encodeCp; rw [if_neg h1, if_neg h2, if_pos h3]]
        have hcont1 : (lo3 (0xE0 + c / 4096) ≤ 0x80 + c / 64 % 64 &&
            0x80 + c / 64 % 64 ≤ hi3 (0xE0 + c / 4096)) = true := by
          simp only [lo3, hi3, Bool.and_eq_true, decide_eq_true_eq]
          rcases hsur with hs | hs <;> split_ifs <;> omega
        have hcont2 : contB (0x80 + c % 64) = true := by
          simp only [contB, Bool.and_eq_true, decide_eq_true_eq]
          omega
        simp only [List.cons_append, List.nil_append]
        rw [utf8Decode_cons, utf8Step_three _ _ _ _ (by omega) (by omega) hcont1 hcont2]
        simp only [List.drop_succ_cons, List.drop_zero]
        congr 1
        omega
      · rw [show encodeCp c = [0xF0 + c / 262144, 0x80 + c / 4096 % 64,
            0x80 + c / 64 % 64, 0x80 + c % 64] from by
          unfold encodeCp; rw [if_neg h1, if_neg h2, if_neg h3]]
        have hcont1 : (lo4 (0xF0 + c / 262144) ≤ 0x80 + c / 4096 % 64 &&
            0x80 + c / 4096 % 64 ≤ hi4 (0xF0 + c / 262144)) = true := by
          simp only [lo4, hi4, Bool.and_eq_true, decide_eq_true_eq]
          split_ifs <;> omega
        have hcont2 : contB (0x80 + c / 64 % 64) = true := by
          simp only [contB, Bool.and_eq_true, decide_eq_true_eq]
          omega
        have hcont3 : contB (0x80 + c % 64) = true := by
          simp only [contB, Bool.and_eq_true, decide_eq_true_eq]
          omega
        simp only [List.cons_append, List.nil_append]
        rw [utf8Decode_cons, utf8Step_four _ _ _ _ _ (by omega) (by omega) hcont1 hcont2 hcont3]
        simp only [List.drop_succ_cons, List.drop_zero]
        congr 1
        omega


/-- The decoder maps a well-formed prefix to its code points and goes on. -/
theorem utf8Decode_flatten : ∀ (cps : List Nat), (∀ c ∈ cps, ScalarCp c) →
    ∀ rest, utf8Decode ((cps.map encodeCp).flatten ++ rest) =
      cps ++ utf8Decode rest
  | [], _, rest => by simp
  | c :: cps, hsc, rest => by
    simp only [List.map_cons, List.flatten_cons, List.append_assoc]
    rw [utf8Decode_encodeCp c (hsc c (by simp))]
    rw [utf8Decode_flatten cps (fun x hx => hsc x (by simp [hx])) rest]
    simp

/-- Decoding is a left inverse of encoding on scalar sequences. -/
theorem utf8Decode_valid (bs cps : List Nat) (h : Utf8Encodes bs cps) :
    utf8Decode bs = cps := by
  obtain ⟨hsc, rfl⟩ := h
  have h2 := utf8Decode_flatten cps hsc []
  simpa [utf8Decode, utf8DecodeGo] using h2

/-- Per-chunk decoding concatenates to whole-stream decoding when every
chunk is itself well-formed UTF-8. -/
theorem decodeChunk_flatten : ∀ (bs : List (List Nat)),
    (∀ c ∈ bs, ValidUtf8 c) →
    (bs.map decodeChunk).flatten = decodeChunk bs.flatten
  | [], _ => by simp [decodeChunk, utf8Decode, utf8DecodeGo, charsOf]
  | b :: bs, h => by
    obtain ⟨cps, hsc, hb⟩ := h b (by simp)
    have ih := decodeChunk_flatten bs (fun x hx => h x (by simp [hx]))
    simp only [List.map_cons, List.flatten_cons, decodeChunk, ih]
    have e1 : utf8Decode (b ++ bs.flatten) = cps ++ utf8Decode bs.flatten := by
      rw [hb]
      exact utf8Decode_flatten cps hsc _
    have e2 : utf8Decode b = cps := utf8Decode_valid b cps ⟨hsc, hb⟩
    rw [e1, e2]
    simp [charsOf]

/-- Text-level chunk-boundary invariance at line-terminator splits. -/
theorem runChunks_nlAligned (parse : List Char → Option Frame)
    (cs : List (List Char))
    (h : ∀ c ∈ cs, c = [] ∨ c.getLast? = some '\n') :
    runChunks parse cs = runChunks parse [cs.flatten] := by
  unfold runChunks
  rw [runChunksRes_nlAligned parse cs h, runChunksRes_single]


/-- Byte-level chunk-boundary invariance: when every chunk is well-formed
UTF-8 on its own and ends at a line terminator, chunked delivery emits the
same events as single-chunk delivery. -/
theorem runChunksBytes_nlAligned (parse : List Char → Option Frame)
    (bs : List (List Nat))
    (h : ∀ c ∈ bs, ∃ cps, Utf8Encodes c cps ∧
      (cps = [] ∨ cps.getLast? = some 10)) :
    runChunksBytes parse bs = runChunksBytes parse [bs.flatten] := by
  unfold runChunksBytes
  have hv : ∀ c ∈ bs, ValidUtf8 c := fun c hc =>
    ⟨(h c hc).choose, (h c hc).choose_spec.1⟩
  have htext : ∀ x ∈ bs.map decodeChunk, x = [] ∨ x.getLast? = some '\n' := by
    intro x hx
    obtain ⟨c, hc, rfl⟩ := List.mem_map.mp hx
    obtain ⟨cps, henc, hend⟩ := h c hc
    rw [show decodeChunk c = charsOf cps from by
      rw [decodeChunk, utf8Decode_valid c cps henc]]
    rcases hend with he | he
    · left
      simp [charsOf, he]
    · right
      rw [charsOf, List.getLast?_map, he]
      rfl
  rw [runChunks_nlAligned parse (bs.map decodeChunk) htext,
    decodeChunk_flatten bs hv]
  simp

/-- What the stateful chunk loop guarantees, relative to the pure event
view `r`: observations extend by the events and log counts of `r`; while
not stopped the busy flags, chat and stream-message invariant persist and
the accumulated response grows by the emitted texts; once stopped the
flags are cleared and the accumulated assistant message was appended to
the chat. -/
def LoopSpec (s s2 : StepSt) (r : LinesRes) : Prop :=
  s2.stopped = r.stopped ∧
  s2.obs.issued = s.obs.issued ∧
  s2.obs.deltas = s.obs.deltas ++ deltaTexts r.evs ∧
  s2.obs.errors = s.obs.errors ∧
  s2.obs.logs = s.obs.logs + r.errs ∧
  (r.stopped = false →
    s2.app.currentStreamMessage =
      some ⟨Role.assistant, s2.app.currentStreamResponse⟩ ∧
    s2.app.currentStreamResponse =
      s.app.currentStreamResponse ++ (deltaTexts r.evs).flatten ∧
    s2.app.currentChat = s.app.currentChat ∧
    s2.app.isStreaming = s.app.isStreaming ∧
    s2.app.isWaitingForResponse = s.app.isWaitingForResponse) ∧
  (r.stopped = true →
    s2.app.isStreaming = false ∧
    s2.app.isWaitingForResponse = false ∧
    s2.app.currentStreamMessage = none ∧
    s2.app.currentStreamResponse = [] ∧
    s2.app.currentChat =
      (match s.app.currentChat with
        | some ms => some (ms ++ [⟨Role.assistant,
            s.app.currentStreamResponse ++ (deltaTexts r.evs).flatten⟩])
        | none => none))

/-- After the done branch returned, later lines change nothing. -/
theorem foldl_doLine_stopped (parse : List Char → Option Frame)
    (ls : List (List Char)) (s : StepSt) (h : s.stopped = true) :
    ls.foldl (doLine parse) s = s := by
  induction ls with
  | nil => rfl
  | cons l ls ih =>
    have : doLine parse s l = s := by
      unfold doLine
      rw [if_pos h]
    rw [List.foldl_cons, this, ih]

/-- Loop specifications compose along sequential processing. -/
theorem LoopSpec_comp (s s1 s2 : StepSt) (r1 r2 : LinesRes)
    (h1 : LoopSpec s s1 r1) (h2 : LoopSpec s1 s2 r2)
    (hr1 : r1.stopped = false) :
    LoopSpec s s2 ⟨r1.evs ++ r2.evs, r1.errs + r2.errs, r2.stopped⟩ := by
  obtain ⟨a1, b1, c1, d1, e1, f1, g1⟩ := h1
  obtain ⟨a2, b2, c2, d2, e2, f2, g2⟩ := h2
  obtain ⟨p1, q1, u1, v1, w1⟩ := f1 hr1
  refine ⟨a2, by rw [b2, b1], ?_, by rw [d2, d1],
    by simp only [e2, e1]; omega, ?_, ?_⟩
  · rw [c2, c1]
    simp [deltaTexts, List.filterMap_append]
  · intro hs
    obtain ⟨p2, q2, u2, v2, w2⟩ := f2 hs
    refine ⟨p2, ?_, by rw [u2, u1], by rw [v2, v1], by rw [w2, w1]⟩
    rw [q2, q1]
    simp [deltaTexts, List.filterMap_append, List.append_assoc]
  · intro hs
    obtain ⟨p2, q2, u2, v2, w2⟩ := g2 hs
    refine ⟨p2, q2, u2, v2, ?_⟩
    rw [w2, u1, q1]
    cases s.app.currentChat with
    | none => rfl
    | some ms =>
      simp [deltaTexts, List.filterMap_append, List.append_assoc]


/-- One line of the stateful loop satisfies the loop specification of its
singleton line list. -/
theorem doLine_spec (parse : List Char → Option Frame) (l : List Char)
    (s : StepSt) (hstop : s.stopped = false)
    (hgood : s.app.currentStreamMessage =
      some ⟨Role.assistant, s.app.currentStreamResponse⟩) :
    LoopSpec s (doLine parse s l) (runLines parse [l]) := by
  have hns : ¬ s.stopped = true := by simp [hstop]
  cases hl : lineOut parse l with
  | skip =>
    unfold doLine
    rw [if_neg hns, hl]
    simp only [runLines, hl]
    exact ⟨hstop, rfl, by simp [deltaTexts], rfl, rfl,
      fun _ => ⟨hgood, by simp [deltaTexts], rfl, rfl, rfl⟩,
      fun h => absurd h Bool.false_ne_true⟩
  | logged =>
    unfold doLine
    rw [if_neg hns, hl]
    simp only [runLines, hl]
    exact ⟨hstop, rfl, by simp [deltaTexts], rfl, by simp,
      fun _ => ⟨hgood, by simp [deltaTexts], rfl, rfl, rfl⟩,
      fun h => absurd h Bool.false_ne_true⟩
  | emit t =>
    unfold doLine
    rw [if_neg hns, hl, hgood]
    simp only [runLines, hl]
    exact ⟨rfl, rfl, by simp [deltaTexts], rfl, by simp,
      fun _ => ⟨rfl, by simp [deltaTexts], rfl, rfl, rfl⟩,
      fun h => absurd h Bool.false_ne_true⟩
  | complete =>
    unfold doLine
    rw [if_neg hns, hl]
    simp only [runLines, hl, hgood]
    refine ⟨rfl, rfl, by simp [deltaTexts], rfl, by simp,
      fun h => absurd h.symm Bool.false_ne_true, fun _ => ?_⟩
    cases hch : s.app.currentChat with
    | none => simp [hch, deltaTexts]
    | some ms => simp [hch, deltaTexts]


/-- After the done branch returned, later chunks change nothing. -/
theorem doChunks_stopped (parse : List Char → Option Frame)
    (cs : List (List Char)) (s : StepSt) (h : s.stopped = true) :
    doChunks parse s cs = s := by
  induction cs with
  | nil => rfl
  | cons c cs ih =>
    show doChunks parse (doChunk parse s c) cs = s
    rw [show doChunk parse s c = s from foldl_doLine_stopped parse (splitNl c) s h]
    exact ih

/-- The stateful line loop satisfies the loop specification. -/
theorem doLines_spec (parse : List Char → Option Frame) :
    ∀ (ls : List (List Char)) (s : StepSt), s.stopped = false →
    s.app.currentStreamMessage =
      some ⟨Role.assistant, s.app.currentStreamResponse⟩ →
    LoopSpec s (ls.foldl (doLine parse) s) (runLines parse ls)
  | [], s, hstop, hgood => by
    simp only [List.foldl_nil, runLines]
    exact ⟨hstop, rfl, by simp [deltaTexts], rfl, by simp,
      fun _ => ⟨hgood, by simp [deltaTexts], rfl, rfl, rfl⟩,
      fun h => absurd h Bool.false_ne_true⟩
  | l :: ls, s, hstop, hgood => by
    have h1 := doLine_spec parse l s hstop hgood
    have hsplit : runLines parse (l :: ls) =
        if (runLines parse [l]).stopped then runLines parse [l]
        else ⟨(runLines parse [l]).evs ++ (runLines parse ls).evs,
          (runLines parse [l]).errs + (runLines parse ls).errs,
          (runLines parse ls).stopped⟩ := by
      simpa using runLines_append parse [l] ls
    by_cases hd : (runLines parse [l]).stopped
    · have hstopped : (doLine parse s l).stopped = true := by rw [h1.1, hd]
      rw [List.foldl_cons, hsplit, if_pos hd,
        foldl_doLine_stopped parse ls _ hstopped]
      exact h1
    · have hd2 : (runLines parse [l]).stopped = false := by
        revert hd
        cases (runLines parse [l]).stopped <;> simp
      have hns : (doLine parse s l).stopped = false := by rw [h1.1, hd2]
      have hgood1 := (h1.2.2.2.2.2.1 hd2).1
      have ih := doLines_spec parse ls (doLine parse s l) hns hgood1
      have comp := LoopSpec_comp s (doLine parse s l) _ _ _ h1 ih hd2
      rw [List.foldl_cons, hsplit, if_neg hd]
      exact comp

/-- The stateful chunk loop satisfies the loop specification. -/
theorem doChunks_spec (parse : List Char → Option Frame) :
    ∀ (cs : List (List Char)) (s : StepSt), s.stopped = false →
    s.app.currentStreamMessage =
      some ⟨Role.assistant, s.app.currentStreamResponse⟩ →
    LoopSpec s (doChunks parse s cs) (runChunksRes parse cs)
  | [], s, hstop, hgood => by
    simp only [doChunks, List.foldl_nil, runChunksRes]
    exact ⟨hstop, rfl, by simp [deltaTexts], rfl, by simp,
      fun _ => ⟨hgood, by simp [deltaTexts], rfl, rfl, rfl⟩,
      fun h => absurd h Bool.false_ne_true⟩
  | c :: cs, s, hstop, hgood => by
    have h1 := doLines_spec parse (splitNl c) s hstop hgood
    have hchunk : doChunk parse s c = (splitNl c).foldl (doLine parse) s := rfl
    rw [← hchunk] at h1
    by_cases hd : (runLines parse (splitNl c)).stopped
    · have hstopped : (doChunk parse s c).stopped = true := by rw [h1.1, hd]
      show LoopSpec s (doChunks parse (doChunk parse s c) cs) _
      rw [doChunks_stopped parse cs _ hstopped,
        show runChunksRes parse (c :: cs) = runLines parse (splitNl c) from by
          simp [runChunksRes, hd]]
      exact h1
    · have hd2 : (runLines parse (splitNl c)).stopped = false := by
        revert hd
        cases (runLines parse (splitNl c)).stopped <;> simp
      have hns : (doChunk parse s c).stopped = false := by rw [h1.1, hd2]
      have hgood1 := (h1.2.2.2.2.2.1 hd2).1
      have ih := doChunks_spec parse cs (doChunk parse s c) hns hgood1
      have comp := LoopSpec_comp s (doChunk parse s c) _ _ _ h1 ih hd2
      show LoopSpec s (doChunks parse (doChunk parse s c) cs) _
      rw [show runChunksRes parse (c :: cs) =
          (⟨(runLines parse (splitNl c)).evs ++ (runChunksRes parse cs).evs,
            (runLines parse (splitNl c)).errs + (runChunksRes parse cs).errs,
            (runChunksRes parse cs).stopped⟩ : LinesRes) from by
        simp [runChunksRes, hd]]
      exact comp

/-! ## Helper lemmas for the claims about `sendMessage` -/

/-- A busy state makes `sendMessage` return immediately with no request
and no state change. -/
theorem sendMessage_busy (parse : List Char → Option Frame)
    (st : AppState) (input : List Char) (t : Transport)
    (h : st.isWaitingForResponse = true ∨ st.isStreaming = true) :
    sendMessage parse st input t = (st, ⟨false, [], 0, 0⟩) := by
  unfold sendMessage
  rcases h with h | h <;> simp [h]

/-- While the streaming flag is stuck, any number of further calls leaves
the state unchanged and issues no request. -/
theorem sendCalls_busy (parse : List Char → Option Frame)
    (st : AppState) (h : st.isStreaming = true) :
    ∀ calls : List (List Char × Transport),
      sendCalls parse st calls = (st, 0)
  | [] => rfl
  | (input, t) :: rest => by
    have h1 : sendMessage parse st input t = (st, ⟨false, [], 0, 0⟩) :=
      sendMessage_busy parse st input t (Or.inr h)
    have h2 := sendCalls_busy parse st h rest
    simp [sendCalls, h1, h2]

/-! ## The claims -/

/-- C1, counterexample: chunk-boundary invariance fails on the code.  The
single frame `data: {"content":"A"}\n` delivered split mid-line emits no
event (the first fragment fails to parse, the second lacks the marker),
while the same bytes in one chunk emit the delta — the code keeps no
cross-chunk buffer. -/
theorem claim1_counterexample :
    runChunksBytes jsonFrameParse
      [asciiB "data: \x7b\"con", asciiB "tent\":\"A\"\x7d\n"] ≠
    runChunksBytes jsonFrameParse
      [asciiB "data: \x7b\"con" ++ asciiB "tent\":\"A\"\x7d\n"] := by
  decide

/-- C1 (amended): invariance holds exactly for the splits the code can
tolerate — every chunk well-formed UTF-8 on its own and ending at a line
terminator; then chunked delivery emits the same ordered events as
single-chunk delivery, for every payload interpretation. -/
theorem claim1_line_aligned_invariance (parse : List Char → Option Frame)
    (bs : List (List Nat))
    (h : ∀ c ∈ bs, ∃ cps, Utf8Encodes c cps ∧
      (cps = [] ∨ cps.getLast? = some 10)) :
    runChunksBytes parse bs = runChunksBytes parse [bs.flatten] :=
  runChunksBytes_nlAligned parse bs h

/-- C1, witness: the amended invariance at two newline-terminated ASCII
chunks. -/
theorem claim1_witness :
    runChunksBytes jsonFrameParse
      [asciiB "data: \x7b\"content\":\"A\"\x7d\n",
        asciiB "data: \x7b\"done\":true\x7d\n"] =
    runChunksBytes jsonFrameParse
      [[asciiB "data: \x7b\"content\":\"A\"\x7d\n",
        asciiB "data: \x7b\"done\":true\x7d\n"].flatten] :=
  claim1_line_aligned_invariance jsonFrameParse
    [asciiB "data: \x7b\"content\":\"A\"\x7d\n",
      asciiB "data: \x7b\"done\":true\x7d\n"]
    (by
      intro c hc
      simp only [List.mem_cons, List.not_mem_nil, or_false] at hc
      rcases hc with rfl | rfl
      · exact ⟨asciiB "data: \x7b\"content\":\"A\"\x7d\n",
          ⟨by decide, by decide⟩, by decide⟩
      · exact ⟨asciiB "data: \x7b\"done\":true\x7d\n",
          ⟨by decide, by decide⟩, by decide⟩)

/-- C2, counterexample: on the three chunks of the claim the consumer
does not emit ContentDelta("Hello") then Completion — the frame split
across the first two chunks is lost. -/
theorem claim2_counterexample :
    runChunks jsonFrameParse
      ["data: \x7b\"content\":\"Hel".toList, "lo\"\x7d\n".toList,
        "data: \x7b\"done\":true\x7d\n".toList] ≠
      [Ev.delta "Hello".toList, Ev.completion] := by
  decide

/-- C2 (amended): on those three chunks the consumer emits no
ContentDelta at all — the split frame's head fails to parse (one error is
logged) and its tail line lacks the marker — and exactly one Completion. -/
theorem claim2_actual_events :
    runChunks jsonFrameParse
      ["data: \x7b\"content\":\"Hel".toList, "lo\"\x7d\n".toList,
        "data: \x7b\"done\":true\x7d\n".toList] = [Ev.completion] ∧
    countCompletion (runChunks jsonFrameParse
      ["data: \x7b\"content\":\"Hel".toList, "lo\"\x7d\n".toList,
        "data: \x7b\"done\":true\x7d\n".toList]) = 1 ∧
    (runChunksRes jsonFrameParse
      ["data: \x7b\"content\":\"Hel".toList, "lo\"\x7d\n".toList,
        "data: \x7b\"done\":true\x7d\n".toList]).errs = 1 := by
  decide

/-- C3, counterexample: decoding is not stateful across chunks.  The two
bytes of `é` split over two chunks decode to two replacement characters,
not to `é`; in a content frame the whole frame is then lost. -/
theorem claim3_counterexample :
    (decodeChunk [0xC3] ++ decodeChunk [0xA9] ≠ decodeChunk [0xC3, 0xA9]) ∧
    runChunksBytes jsonFrameParse
      [asciiB "data: \x7b\"content\":\"" ++ [0xC3],
        [0xA9] ++ asciiB "\"\x7d\n"] ≠
    runChunksBytes jsonFrameParse
      [asciiB "data: \x7b\"content\":\"" ++ [0xC3] ++
        ([0xA9] ++ asciiB "\"\x7d\n")] := by
  constructor
  · decide
  · decide

/-- C3 (amended): each chunk is decoded independently by a fresh
non-streaming decode, so the decoded text agrees with the single-chunk
decode exactly when every chunk is well-formed UTF-8 by itself (no
multi-byte character split across a boundary). -/
theorem claim3_stateless_decode (bs : List (List Nat))
    (h : ∀ c ∈ bs, ValidUtf8 c) :
    (bs.map decodeChunk).flatten = decodeChunk bs.flatten :=
  decodeChunk_flatten bs h

/-- C3, witness: the amended statement at chunks split between the
characters `h` and `é`. -/
theorem claim3_witness :
    (([[0x68], [0xC3, 0xA9]] : List (List Nat)).map decodeChunk).flatten =
      decodeChunk ([[0x68], [0xC3, 0xA9]] : List (List Nat)).flatten :=
  claim3_stateless_decode [[0x68], [0xC3, 0xA9]] (by
    intro c hc
    simp only [List.mem_cons, List.not_mem_nil, or_false] at hc
    rcases hc with rfl | rfl
    · exact ⟨[0x68], by decide, by decide⟩
    · exact ⟨[0xE9], by decide, by decide⟩)

/-- C4: a complete frame whose payload strips to empty or to the literal
`[DONE]` is skipped — no event, and processing of the following lines is
unaffected; concretely, `data: [DONE]` followed by `data: {"done": true}`
yields exactly the one Completion and no ContentDelta. -/
theorem claim4_sentinel_skipped (parse : List Char → Option Frame)
    (line d : List Char)
    (hp : payloadOf line = some d) (hd : d = [] ∨ d = "[DONE]".toList) :
    lineOut parse line = LineOut.skip ∧
    (∀ ls, runLines parse (line :: ls) = runLines parse ls) ∧
    runChunks jsonFrameParse
      ["data: [DONE]\n".toList, "data: \x7b\"done\": true\x7d\n".toList] =
      [Ev.completion] := by
  have hskip : lineOut parse line = LineOut.skip := by
    unfold lineOut
    rw [hp]
    simp only [if_pos hd]
  exact ⟨hskip, fun ls => by simp [runLines, hskip], by decide⟩

/-- C4, witness: the sentinel line `data: [DONE]`. -/
theorem claim4_witness :
    lineOut jsonFrameParse "data: [DONE]".toList = LineOut.skip ∧
    (∀ ls, runLines jsonFrameParse ("data: [DONE]".toList :: ls) =
      runLines jsonFrameParse ls) ∧
    runChunks jsonFrameParse
      ["data: [DONE]\n".toList, "data: \x7b\"done\": true\x7d\n".toList] =
      [Ev.completion] :=
  claim4_sentinel_skipped jsonFrameParse "data: [DONE]".toList
    "[DONE]".toList (by decide) (Or.inr rfl)

/-- C5: a frame whose payload the parse rejects is non-fatal — it emits
nothing, adds exactly one logged error, and every event of the
surrounding lines is delivered unchanged (the error never escapes: the
run is a total function of the remaining lines). -/
theorem claim5_malformed_nonfatal (parse : List Char → Option Frame)
    (ls1 ls2 : List (List Char)) (lm : List Char)
    (hpre : marker.isPrefixOf lm = true)
    (hne : lm.drop 6 ≠ []) (hnd : lm.drop 6 ≠ "[DONE]".toList)
    (hparse : parse (lm.drop 6) = none)
    (hstop : (runLines parse ls1).stopped = false) :
    (runLines parse (ls1 ++ lm :: ls2)).evs =
      (runLines parse (ls1 ++ ls2)).evs ∧
    (runLines parse (ls1 ++ lm :: ls2)).errs =
      (runLines parse (ls1 ++ ls2)).errs + 1 ∧
    (runLines parse (ls1 ++ lm :: ls2)).stopped =
      (runLines parse (ls1 ++ ls2)).stopped := by
  have hlm : lineOut parse lm = LineOut.logged := by
    unfold lineOut payloadOf
    rw [if_pos hpre]
    change (if List.drop 6 lm = [] ∨ List.drop 6 lm = "[DONE]".toList
      then LineOut.skip
      else match parse (List.drop 6 lm) with
        | none => LineOut.logged
        | some f =>
          if f.doneF then LineOut.complete
          else match f.content with
            | some t => LineOut.emit t
            | none => LineOut.skip) = LineOut.logged
    rw [if_neg (by rw [not_or]; exact ⟨hne, hnd⟩), hparse]
  have e3 : runLines parse (lm :: ls2) =
      ⟨(runLines parse ls2).evs, (runLines parse ls2).errs + 1,
        (runLines parse ls2).stopped⟩ := by
    simp [runLines, hlm]
  rw [runLines_append parse ls1 (lm :: ls2), runLines_append parse ls1 ls2,
    if_neg (by simp [hstop]), if_neg (by simp [hstop]), e3]
  refine ⟨rfl, ?_, rfl⟩
  show (runLines parse ls1).errs + ((runLines parse ls2).errs + 1) =
    (runLines parse ls1).errs + (runLines parse ls2).errs + 1
  omega

/-- C5, witness: the spec's own example, `data: {not json` between two
valid content frames. -/
theorem claim5_witness :
    (runLines jsonFrameParse
      (["data: \x7b\"content\":\"A\"\x7d".toList] ++
        "data: \x7bnot json".toList ::
        ["data: \x7b\"content\":\"B\"\x7d".toList])).evs =
      (runLines jsonFrameParse
        (["data: \x7b\"content\":\"A\"\x7d".toList] ++
          ["data: \x7b\"content\":\"B\"\x7d".toList])).evs ∧
    (runLines jsonFrameParse
      (["data: \x7b\"content\":\"A\"\x7d".toList] ++
        "data: \x7bnot json".toList ::
        ["data: \x7b\"content\":\"B\"\x7d".toList])).errs =
      (runLines jsonFrameParse
        (["data: \x7b\"content\":\"A\"\x7d".toList] ++
          ["data: \x7b\"content\":\"B\"\x7d".toList])).errs + 1 ∧
    (runLines jsonFrameParse
      (["data: \x7b\"content\":\"A\"\x7d".toList] ++
        "data: \x7bnot json".toList ::
        ["data: \x7b\"content\":\"B\"\x7d".toList])).stopped =
      (runLines jsonFrameParse
        (["data: \x7b\"content\":\"A\"\x7d".toList] ++
          ["data: \x7b\"content\":\"B\"\x7d".toList])).stopped :=
  claim5_malformed_nonfatal jsonFrameParse
    ["data: \x7b\"content\":\"A\"\x7d".toList]
    ["data: \x7b\"content\":\"B\"\x7d".toList]
    "data: \x7bnot json".toList
    (by decide) (by decide) (by decide)
    (Option.isNone_iff_eq_none.mp (by decide)) (by decide)

/-- C6: the first successfully parsed frame with truthy `done` produces
exactly one Completion and ends processing at once — the events equal
those of the stream truncated after that chunk, no later chunk is read,
the accumulated assistant message (the concatenation of all delta texts)
is appended to the current chat, both busy flags clear, and no error is
surfaced (a pending transport failure is never observed). -/
theorem claim6_done_completes (parse : List Char → Option Frame)
    (st : AppState) (input : List Char) (t : Transport)
    (cs1 : List (List Char)) (c : List Char) (cs2 : List (List Char))
    (ms : List Msg)
    (hchunks : t.chunks = cs1 ++ c :: cs2)
    (h1 : (runChunksRes parse cs1).stopped = false)
    (h2 : (runLines parse (splitNl c)).stopped = true)
    (hmsg : (jsTrim input).isEmpty = false)
    (hw : st.isWaitingForResponse = false) (hs : st.isStreaming = false)
    (hchat : st.currentChat = some ms) :
    runChunksRes parse (cs1 ++ c :: cs2) = runChunksRes parse (cs1 ++ [c]) ∧
    countCompletion (runChunks parse (cs1 ++ c :: cs2)) = 1 ∧
    (sendMessage parse st input t).1.currentChat =
      some (ms ++ [⟨Role.user, jsTrim input⟩] ++
        [⟨Role.assistant,
          (deltaTexts (runChunks parse (cs1 ++ c :: cs2))).flatten⟩]) ∧
    (sendMessage parse st input t).1.isStreaming = false ∧
    (sendMessage parse st input t).1.isWaitingForResponse = false ∧
    (sendMessage parse st input t).2.errors = 0 := by
  have hcc : runChunksRes parse (c :: cs2) = runLines parse (splitNl c) := by
    simp [runChunksRes, h2]
  have hc1 : runChunksRes parse (cs1 ++ c :: cs2) =
      runChunksRes parse (cs1 ++ [c]) := by
    rw [runChunksRes_append, runChunksRes_append, if_neg (by simp [h1]),
      if_neg (by simp [h1]), hcc, runChunksRes_single]
  have hstop : (runChunksRes parse (cs1 ++ c :: cs2)).stopped = true := by
    rw [runChunksRes_append, if_neg (by simp [h1]), hcc]
    exact h2
  have hcount : countCompletion (runChunks parse (cs1 ++ c :: cs2)) = 1 := by
    unfold runChunks
    rw [runChunksRes_count, if_pos hstop]
  have hspec := doChunks_spec parse t.chunks
    ⟨{ addMessageToChat st Role.user (jsTrim input) with
        isWaitingForResponse := true, isStreaming := true,
        currentStreamResponse := [],
        currentStreamMessage := some ⟨Role.assistant, []⟩ },
      ⟨true, [], 0, 0⟩, false⟩ rfl rfl
  obtain ⟨a1, b1, c1, d1, e1, f1, g1⟩ := hspec
  have hstop2 : (runChunksRes parse t.chunks).stopped = true := by
    rw [hchunks]
    exact hstop
  obtain ⟨p1, q1, u1, v1, w1⟩ := g1 hstop2
  have hrun : sendMessage parse st input t =
      ((doChunks parse
        ⟨{ addMessageToChat st Role.user (jsTrim input) with
            isWaitingForResponse := true, isStreaming := true,
            currentStreamResponse := [],
            currentStreamMessage := some ⟨Role.assistant, []⟩ },
          ⟨true, [], 0, 0⟩, false⟩ t.chunks).app,
        (doChunks parse
        ⟨{ addMessageToChat st Role.user (jsTrim input) with
            isWaitingForResponse := true, isStreaming := true,
            currentStreamResponse := [],
            currentStreamMessage := some ⟨Role.assistant, []⟩ },
          ⟨true, [], 0, 0⟩, false⟩ t.chunks).obs) := by
    unfold sendMessage
    rw [if_neg (by simp [hmsg, hw, hs])]
    rw [if_pos (by rw [a1, hstop2])]
  rw [hrun]
  refine ⟨hc1, hcount, ?_, p1, q1, by rw [d1]⟩
  rw [w1]
  have hchat2 : (addMessageToChat st Role.user (jsTrim input)).currentChat =
      some (ms ++ [⟨Role.user, jsTrim input⟩]) := by
    simp [addMessageToChat, hchat]
  simp only [hchat2, hchunks, runChunks]
  simp [List.append_assoc]

/-- C6, witness: a `done` frame in the first chunk, with a content frame
in a later chunk that is never read. -/
theorem claim6_witness :
    runChunksRes jsonFrameParse
      ([] ++ "data: \x7b\"done\":true\x7d\n".toList ::
        ["data: \x7b\"content\":\"X\"\x7d\n".toList]) =
      runChunksRes jsonFrameParse
        ([] ++ ["data: \x7b\"done\":true\x7d\n".toList]) ∧
    countCompletion (runChunks jsonFrameParse
      ([] ++ "data: \x7b\"done\":true\x7d\n".toList ::
        ["data: \x7b\"content\":\"X\"\x7d\n".toList])) = 1 ∧
    (sendMessage jsonFrameParse ⟨false, false, [], none, some []⟩ "hi".toList
      ⟨["data: \x7b\"done\":true\x7d\n".toList,
        "data: \x7b\"content\":\"X\"\x7d\n".toList], none⟩).1.currentChat =
      some (([] : List Msg) ++ [⟨Role.user, jsTrim "hi".toList⟩] ++
        [⟨Role.assistant,
          (deltaTexts (runChunks jsonFrameParse
            ([] ++ "data: \x7b\"done\":true\x7d\n".toList ::
              ["data: \x7b\"content\":\"X\"\x7d\n".toList]))).flatten⟩]) ∧
    (sendMessage jsonFrameParse ⟨false, false, [], none, some []⟩ "hi".toList
      ⟨["data: \x7b\"done\":true\x7d\n".toList,
        "data: \x7b\"content\":\"X\"\x7d\n".toList], none⟩).1.isStreaming =
      false ∧
    (sendMessage jsonFrameParse ⟨false, false, [], none, some []⟩ "hi".toList
      ⟨["data: \x7b\"done\":true\x7d\n".toList,
        "data: \x7b\"content\":\"X\"\x7d\n".toList],
        none⟩).1.isWaitingForResponse = false ∧
    (sendMessage jsonFrameParse ⟨false, false, [], none, some []⟩ "hi".toList
      ⟨["data: \x7b\"done\":true\x7d\n".toList,
        "data: \x7b\"content\":\"X\"\x7d\n".toList], none⟩).2.errors = 0 :=
  claim6_done_completes jsonFrameParse ⟨false, false, [], none, some []⟩
    "hi".toList
    ⟨["data: \x7b\"done\":true\x7d\n".toList,
      "data: \x7b\"content\":\"X\"\x7d\n".toList], none⟩
    [] "data: \x7b\"done\":true\x7d\n".toList
    ["data: \x7b\"content\":\"X\"\x7d\n".toList] []
    rfl (by decide) (by decide) (by decide) rfl rfl rfl

/-- C7: a transport failure after the delivered chunks (a failed read, a
non-ok response or a failed fetch) surfaces exactly one error, emits no
ContentDelta beyond those of the delivered chunks, clears the busy flags,
and appends the human-readable error text as the assistant message of
the current chat, exactly like a normal reply. -/
theorem claim7_transport_error (parse : List Char → Option Frame)
    (st : AppState) (input : List Char) (t : Transport)
    (emsg : List Char) (ms : List Msg)
    (hmsg : (jsTrim input).isEmpty = false)
    (hw : st.isWaitingForResponse = false) (hs : st.isStreaming = false)
    (hchat : st.currentChat = some ms)
    (hfail : t.failMsg = some emsg)
    (hnd : (runChunksRes parse t.chunks).stopped = false) :
    (sendMessage parse st input t).2.errors = 1 ∧
    (sendMessage parse st input t).2.deltas =
      deltaTexts (runChunks parse t.chunks) ∧
    (sendMessage parse st input t).1.currentChat =
      some (ms ++ [⟨Role.user, jsTrim input⟩] ++
        [⟨Role.assistant, connErr emsg⟩]) ∧
    (sendMessage parse st input t).1.isStreaming = false ∧
    (sendMessage parse st input t).1.isWaitingForResponse = false ∧
    (sendMessage parse st input t).1.currentStreamMessage = none := by
  have hspec := doChunks_spec parse t.chunks
    ⟨{ addMessageToChat st Role.user (jsTrim input) with
        isWaitingForResponse := true, isStreaming := true,
        currentStreamResponse := [],
        currentStreamMessage := some ⟨Role.assistant, []⟩ },
      ⟨true, [], 0, 0⟩, false⟩ rfl rfl
  obtain ⟨a1, b1, c1, d1, e1, f1, g1⟩ := hspec
  obtain ⟨p1, q1, u1, v1, w1⟩ := f1 hnd
  have hrun : sendMessage parse st input t =
      (handleSendMessageError (doChunks parse
        ⟨{ addMessageToChat st Role.user (jsTrim input) with
            isWaitingForResponse := true, isStreaming := true,
            currentStreamResponse := [],
            currentStreamMessage := some ⟨Role.assistant, []⟩ },
          ⟨true, [], 0, 0⟩, false⟩ t.chunks).app emsg,
        { (doChunks parse
        ⟨{ addMessageToChat st Role.user (jsTrim input) with
            isWaitingForResponse := true, isStreaming := true,
            currentStreamResponse := [],
            currentStreamMessage := some ⟨Role.assistant, []⟩ },
          ⟨true, [], 0, 0⟩, false⟩ t.chunks).obs with
          errors := (doChunks parse
        ⟨{ addMessageToChat st Role.user (jsTrim input) with
            isWaitingForResponse := true, isStreaming := true,
            currentStreamResponse := [],
            currentStreamMessage := some ⟨Role.assistant, []⟩ },
          ⟨true, [], 0, 0⟩, false⟩ t.chunks).obs.errors + 1 }) := by
    unfold sendMessage
    rw [if_neg (by simp [hmsg, hw, hs])]
    rw [if_neg (by rw [a1, hnd]; exact Bool.false_ne_true), hfail]
  have herr : handleSendMessageError (doChunks parse
      ⟨{ addMessageToChat st Role.user (jsTrim input) with
          isWaitingForResponse := true, isStreaming := true,
          currentStreamResponse := [],
          currentStreamMessage := some ⟨Role.assistant, []⟩ },
        ⟨true, [], 0, 0⟩, false⟩ t.chunks).app emsg =
      { isStreaming := false, isWaitingForResponse := false,
        currentStreamResponse := [], currentStreamMessage := none,
        currentChat := some (ms ++ [⟨Role.user, jsTrim input⟩] ++
          [⟨Role.assistant, connErr emsg⟩]) } := by
    unfold handleSendMessageError
    simp only [p1, u1]
    simp [addMessageToChat, hchat]
  rw [hrun]
  refine ⟨by simp [d1], by simp [c1, runChunks], by rw [herr], by rw [herr],
    by rw [herr], by rw [herr]⟩

/-- C7, witness: a recorded failure after one delivered content chunk. -/
theorem claim7_witness :
    (sendMessage jsonFrameParse ⟨false, false, [], none, some []⟩
      "hi".toList
      ⟨["data: \x7b\"content\":\"A\"\x7d\n".toList],
        some "network down".toList⟩).2.errors = 1 ∧
    (sendMessage jsonFrameParse ⟨false, false, [], none, some []⟩
      "hi".toList
      ⟨["data: \x7b\"content\":\"A\"\x7d\n".toList],
        some "network down".toList⟩).2.deltas =
      deltaTexts (runChunks jsonFrameParse
        ["data: \x7b\"content\":\"A\"\x7d\n".toList]) ∧
    (sendMessage jsonFrameParse ⟨false, false, [], none, some []⟩
      "hi".toList
      ⟨["data: \x7b\"content\":\"A\"\x7d\n".toList],
        some "network down".toList⟩).1.currentChat =
      some (([] : List Msg) ++ [⟨Role.user, jsTrim "hi".toList⟩] ++
        [⟨Role.assistant, connErr "network down".toList⟩]) ∧
    (sendMessage jsonFrameParse ⟨false, false, [], none, some []⟩
      "hi".toList
      ⟨["data: \x7b\"content\":\"A\"\x7d\n".toList],
        some "network down".toList⟩).1.isStreaming = false ∧
    (sendMessage jsonFrameParse ⟨false, false, [], none, some []⟩
      "hi".toList
      ⟨["data: \x7b\"content\":\"A\"\x7d\n".toList],
        some "network down".toList⟩).1.isWaitingForResponse = false ∧
    (sendMessage jsonFrameParse ⟨false, false, [], none, some []⟩
      "hi".toList
      ⟨["data: \x7b\"content\":\"A\"\x7d\n".toList],
        some "network down".toList⟩).1.currentStreamMessage = none :=
  claim7_transport_error jsonFrameParse ⟨false, false, [], none, some []⟩
    "hi".toList
    ⟨["data: \x7b\"content\":\"A\"\x7d\n".toList],
      some "network down".toList⟩
    "network down".toList [] (by decide) rfl rfl rfl rfl (by decide)

/-- C8: whenever a previous stream has not finished (either busy flag is
still set), `sendMessage` issues no request and changes no state — it
returns immediately with the state it was given. -/
theorem claim8_busy_guard (parse : List Char → Option Frame)
    (st : AppState) (input : List Char) (t : Transport)
    (h : st.isWaitingForResponse = true ∨ st.isStreaming = true) :
    sendMessage parse st input t = (st, ⟨false, [], 0, 0⟩) := by
  unfold sendMessage
  rcases h with h | h <;> simp [h]

/-- C8, witness: a state with the streaming flag set. -/
theorem claim8_witness :
    sendMessage jsonFrameParse
      ⟨true, false, [], none, none⟩ "hi".toList ⟨[], none⟩ =
      (⟨true, false, [], none, none⟩, ⟨false, [], 0, 0⟩) :=
  claim8_busy_guard jsonFrameParse ⟨true, false, [], none, none⟩
    "hi".toList ⟨[], none⟩ (Or.inr rfl)

/-- C9: the consumer is deterministic — over equal recorded chunk
sequences it emits equal ordered event sequences, and the full
`sendMessage` run is likewise a function of its recorded transport. -/
theorem claim9_deterministic (parse : List Char → Option Frame)
    (cs1 cs2 : List (List Char)) (h : cs1 = cs2) :
    runChunks parse cs1 = runChunks parse cs2 ∧
    ∀ (st : AppState) (input : List Char) (t1 t2 : Transport), t1 = t2 →
      sendMessage parse st input t1 = sendMessage parse st input t2 := by
  subst h
  exact ⟨rfl, fun st input t1 t2 ht => by rw [ht]⟩

/-- C9, witness: determinism at a concrete one-chunk recording. -/
theorem claim9_witness :
    runChunks jsonFrameParse ["data: \x7b\"done\":true\x7d\n".toList] =
      runChunks jsonFrameParse ["data: \x7b\"done\":true\x7d\n".toList] ∧
    ∀ (st : AppState) (input : List Char) (t1 t2 : Transport), t1 = t2 →
      sendMessage jsonFrameParse st input t1 =
        sendMessage jsonFrameParse st input t2 :=
  claim9_deterministic jsonFrameParse
    ["data: \x7b\"done\":true\x7d\n".toList]
    ["data: \x7b\"done\":true\x7d\n".toList] rfl

/-- C10 (implicit): when the source ends cleanly before any truthy `done`
frame, `sendMessage` returns with both busy flags still true, and from
then on every further call returns immediately without issuing a
request. -/
theorem claim10_eof_flags_stuck (parse : List Char → Option Frame)
    (st : AppState) (input : List Char) (t : Transport)
    (hmsg : (jsTrim input).isEmpty = false)
    (hw : st.isWaitingForResponse = false) (hs : st.isStreaming = false)
    (hfail : t.failMsg = none)
    (hnd : (runChunksRes parse t.chunks).stopped = false) :
    (sendMessage parse st input t).2.issued = true ∧
    (sendMessage parse st input t).1.isStreaming = true ∧
    (sendMessage parse st input t).1.isWaitingForResponse = true ∧
    ∀ calls : List (List Char × Transport),
      sendCalls parse (sendMessage parse st input t).1 calls =
        ((sendMessage parse st input t).1, 0) := by
  have hspec := doChunks_spec parse t.chunks
    ⟨{ addMessageToChat st Role.user (jsTrim input) with
        isWaitingForResponse := true, isStreaming := true,
        currentStreamResponse := [],
        currentStreamMessage := some ⟨Role.assistant, []⟩ },
      ⟨true, [], 0, 0⟩, false⟩ rfl rfl
  obtain ⟨a1, b1, c1, d1, e1, f1, g1⟩ := hspec
  obtain ⟨p1, q1, u1, v1, w1⟩ := f1 hnd
  have hrun : sendMessage parse st input t =
      ((doChunks parse
        ⟨{ addMessageToChat st Role.user (jsTrim input) with
            isWaitingForResponse := true, isStreaming := true,
            currentStreamResponse := [],
            currentStreamMessage := some ⟨Role.assistant, []⟩ },
          ⟨true, [], 0, 0⟩, false⟩ t.chunks).app,
        (doChunks parse
        ⟨{ addMessageToChat st Role.user (jsTrim input) with
            isWaitingForResponse := true, isStreaming := true,
            currentStreamResponse := [],
            currentStreamMessage := some ⟨Role.assistant, []⟩ },
          ⟨true, [], 0, 0⟩, false⟩ t.chunks).obs) := by
    unfold sendMessage
    rw [if_neg (by simp [hmsg, hw, hs])]
    rw [if_neg (by rw [a1, hnd]; exact Bool.false_ne_true), hfail]
  rw [hrun]
  have hflags : (doChunks parse
      ⟨{ addMessageToChat st Role.user (jsTrim input) with
          isWaitingForResponse := true, isStreaming := true,
          currentStreamResponse := [],
          currentStreamMessage := some ⟨Role.assistant, []⟩ },
        ⟨true, [], 0, 0⟩, false⟩ t.chunks).app.isStreaming = true := by
    rw [v1]
  refine ⟨by rw [b1], hflags, by rw [w1], fun calls => ?_⟩
  exact sendCalls_busy parse _ hflags calls

/-- C10, witness: a transport that ends cleanly with no chunks at all. -/
theorem claim10_witness :
    (sendMessage jsonFrameParse ⟨false, false, [], none, none⟩
      "hi".toList ⟨[], none⟩).2.issued = true ∧
    (sendMessage jsonFrameParse ⟨false, false, [], none, none⟩
      "hi".toList ⟨[], none⟩).1.isStreaming = true ∧
    (sendMessage jsonFrameParse ⟨false, false, [], none, none⟩
      "hi".toList ⟨[], none⟩).1.isWaitingForResponse = true ∧
    ∀ calls : List (List Char × Transport),
      sendCalls jsonFrameParse
        (sendMessage jsonFrameParse ⟨false, false, [], none, none⟩
          "hi".toList ⟨[], none⟩).1 calls =
      ((sendMessage jsonFrameParse ⟨false, false, [], none, none⟩
        "hi".toList ⟨[], none⟩).1, 0) :=
  claim10_eof_flags_stuck jsonFrameParse ⟨false, false, [], none, none⟩
    "hi".toList ⟨[], none⟩ (by decide) rfl rfl rfl (by decide)

end WallE
